import Mathlib

/-
Shallow embedding of the chess rules engine in `src/engine.ts`
(class `ChessGame`): board model, pseudo-legal move generation,
check detection, legal-move filtering, move application with
terminal-state detection, and the FEN-like serializer.

Conventions of the embedding:
* TypeScript `Position {row, col}` uses JavaScript numbers; all
  coordinate arithmetic in the engine is integral, so coordinates are
  `Int` here.
* `BoardState = (Piece | null)[][]` becomes `List (List (Option Piece))`.
  Raw element access `board[r][c]` becomes `rawGet`, which returns
  `none` outside the stored lists; every raw access in the source is
  dynamically on in-range indices, matching this.
* The mutable class instance becomes a `ChessGame` structure threaded
  explicitly: the one mutating method `move` returns its boolean result
  together with the updated state, and the query methods return their
  result together with the (unchanged) state where the claims need it.
-/

inductive PieceType where
  | p | r | n | b | q | k
deriving DecidableEq, Repr, Fintype

inductive Color where
  | w | b
deriving DecidableEq, Repr, Fintype

structure Piece where
  type : PieceType
  color : Color
  hasMoved : Bool
deriving DecidableEq, Repr, Fintype

/-- `BoardState = (Piece | null)[][]`. -/
abbrev Board := List (List (Option Piece))

structure Position where
  row : Int
  col : Int
deriving DecidableEq, Repr

/-- TypeScript `winner: Color | 'draw' | null`; the `Option` wrapper is
the `null` case. -/
inductive WinnerV where
  | side (c : Color)
  | draw
deriving DecidableEq, Repr

/-- The fields of the `ChessGame` class (`history` is declared by the
class and never used by any method after construction). -/
structure ChessGame where
  board : Board
  turn : Color
  history : List Board
  deadPieces : List Piece
  winner : Option WinnerV
deriving DecidableEq, Repr

/-- Raw array access `board[r][c]`; all raw accesses in the source are
made with in-range indices. -/
def rawGet (b : Board) (r c : Int) : Option Piece :=
  (b.getD r.toNat []).getD c.toNat none

/-- Raw array update `board[r][c] = v`. -/
def setSq (b : Board) (r c : Int) (v : Option Piece) : Board :=
  b.set r.toNat ((b.getD r.toNat []).set c.toNat v)

/-- `ChessGame.isValidPos`. -/
def isValidPos (pos : Position) : Bool :=
  decide (0 ≤ pos.row ∧ pos.row < 8 ∧ 0 ≤ pos.col ∧ pos.col < 8)

/-- `ChessGame.getPiece`. -/
def getPiece (g : ChessGame) (pos : Position) : Option Piece :=
  if isValidPos pos then rawGet g.board pos.row pos.col else none

/-- `ChessGame.createInitialBoard`: one rank of one color. -/
def mkRow (color : Color) (types : List PieceType) : List (Option Piece) :=
  types.map (fun t => some { type := t, color := color, hasMoved := false })

def backRow : List PieceType :=
  [PieceType.r, PieceType.n, PieceType.b, PieceType.q,
   PieceType.k, PieceType.b, PieceType.n, PieceType.r]

def pawnRow : List PieceType := List.replicate 8 PieceType.p

def emptyRow : List (Option Piece) := List.replicate 8 none

/-- `ChessGame.createInitialBoard`: rows 0-1 black, rows 6-7 white,
rows 2-5 empty. -/
def createInitialBoard : Board :=
  [mkRow Color.b backRow, mkRow Color.b pawnRow,
   emptyRow, emptyRow, emptyRow, emptyRow,
   mkRow Color.w pawnRow, mkRow Color.w backRow]

/-- The `ChessGame` constructor. -/
def newGame : ChessGame :=
  { board := createInitialBoard, turn := Color.w,
    history := [], deadPieces := [], winner := none }

/-- `ChessGame.cloneBoard`: `board.map(row => row.map(p => p ? {...p} : null))`. -/
def cloneBoard (b : Board) : Board :=
  b.map (fun row => row.map (fun p =>
    match p with
    | some pc => some { type := pc.type, color := pc.color, hasMoved := pc.hasMoved }
    | none => none))

/-- The `addIfValid` helper inside `getPseudoLegalMoves`: returns the
square pushed onto `moves` (if any) and the boolean the helper returns
(`!target`, used by the pawn double-step logic). -/
def addIfValid (board : Board) (color : Color) (r c : Int)
    (captureOnly moveOnly : Bool) : Option Position × Bool :=
  if isValidPos ⟨r, c⟩ = false then (none, false)
  else
    match rawGet board r c with
    | some target =>
      if target.color = color then (none, false)
      else if moveOnly then (none, false)
      else (some ⟨r, c⟩, false)
    | none =>
      if captureOnly then (none, false)
      else (some ⟨r, c⟩, true)

/-- The sliding-piece loop: walk from `(r, c)` in direction
`(dr, dc)` while on the board; stop after an occupied square
(including it when it holds an enemy piece).  The fuel argument only
bounds the recursion; a ray from an on-board square can pass through at
most eight on-board squares, and the walk stops at the first off-board
square, so fuel 8 never truncates the walk. -/
def slide (board : Board) (color : Color) (dr dc : Int) :
    Int → Int → Nat → List Position
  | _, _, 0 => []
  | r, c, Nat.succ fuel =>
    if isValidPos ⟨r, c⟩ then
      match rawGet board r c with
      | some target => if target.color ≠ color then [⟨r, c⟩] else []
      | none => ⟨r, c⟩ :: slide board color dr dc (r + dr) (c + dc) fuel
    else []

def knightOffsets : List (Int × Int) :=
  [(-2, -1), (-2, 1), (-1, -2), (-1, 2), (1, -2), (1, 2), (2, -1), (2, 1)]

def kingOffsets : List (Int × Int) :=
  [(-1, -1), (-1, 0), (-1, 1), (0, -1), (0, 1), (1, -1), (1, 0), (1, 1)]

def rookDirections : List (Int × Int) :=
  [(-1, 0), (1, 0), (0, -1), (0, 1)]

def bishopDirections : List (Int × Int) :=
  [(-1, -1), (-1, 1), (1, -1), (1, 1)]

/-- The castling candidates pushed at the end of the king branch of
`getPseudoLegalMoves`: kingside to col 6 when the col-7 rook is unmoved
and cols 5-6 are empty, queenside to col 2 when the col-0 rook is
unmoved and cols 1-3 are empty; only offered when the king is unmoved. -/
def castleCandidates (board : Board) (pos : Position) (piece : Piece) : List Position :=
  if piece.hasMoved = false then
    (match rawGet board pos.row 7 with
     | some rk =>
       if rk.type = PieceType.r ∧ rk.hasMoved = false ∧
          rawGet board pos.row 5 = none ∧ rawGet board pos.row 6 = none
       then [⟨pos.row, 6⟩] else []
     | none => []) ++
    (match rawGet board pos.row 0 with
     | some rk =>
       if rk.type = PieceType.r ∧ rk.hasMoved = false ∧
          rawGet board pos.row 1 = none ∧ rawGet board pos.row 2 = none ∧
          rawGet board pos.row 3 = none
       then [⟨pos.row, 2⟩] else []
     | none => [])
  else []

/-- The pawn branch of `getPseudoLegalMoves`: single step onto an
empty square, double step when unmoved on its home rank and the single
step was possible, diagonal capture-only squares. -/
def pawnMoves (board : Board) (pos : Position) (piece : Piece) : List Position :=
  let direction : Int := if piece.color = Color.w then -1 else 1
  let f1 := addIfValid board piece.color (pos.row + direction) pos.col false true
  let f2 :=
    if f1.2 = true ∧ piece.hasMoved = false ∧
       ((piece.color = Color.w ∧ pos.row = 6) ∨ (piece.color = Color.b ∧ pos.row = 1))
    then (addIfValid board piece.color (pos.row + direction * 2) pos.col false true).1.toList
    else []
  f1.1.toList ++ f2 ++
    (addIfValid board piece.color (pos.row + direction) (pos.col - 1) true false).1.toList ++
    (addIfValid board piece.color (pos.row + direction) (pos.col + 1) true false).1.toList

/-- The knight branch of `getPseudoLegalMoves`. -/
def knightMoves (board : Board) (pos : Position) (piece : Piece) : List Position :=
  knightOffsets.flatMap (fun o =>
    (addIfValid board piece.color (pos.row + o.1) (pos.col + o.2) false false).1.toList)

/-- The king branch of `getPseudoLegalMoves`: one-step offsets plus the
castling candidates. -/
def kingMoves (board : Board) (pos : Position) (piece : Piece) : List Position :=
  (kingOffsets.flatMap (fun o =>
    (addIfValid board piece.color (pos.row + o.1) (pos.col + o.2) false false).1.toList)) ++
  castleCandidates board pos piece

/-- The sliding branch of `getPseudoLegalMoves` for the given
direction set. -/
def slidingMoves (board : Board) (pos : Position) (piece : Piece)
    (dirs : List (Int × Int)) : List Position :=
  dirs.flatMap (fun o =>
    slide board piece.color o.1 o.2 (pos.row + o.1) (pos.col + o.2) 8)

/-- `ChessGame.getPseudoLegalMoves(pos, board)`: dispatch on the kind
of the piece found at `pos` (rook and queen walk the straight
directions, bishop and queen the diagonals, in source order). -/
def getPseudoLegalMoves (pos : Position) (board : Board) : List Position :=
  match rawGet board pos.row pos.col with
  | none => []
  | some piece =>
    match piece.type with
    | PieceType.p => pawnMoves board pos piece
    | PieceType.n => knightMoves board pos piece
    | PieceType.k => kingMoves board pos piece
    | PieceType.r => slidingMoves board pos piece rookDirections
    | PieceType.b => slidingMoves board pos piece bishopDirections
    | PieceType.q => slidingMoves board pos piece (rookDirections ++ bishopDirections)

/-- The king-location scan in `ChessGame.isCheck`: the inner `break`
only leaves the column loop, so the scan keeps the first king column of
the last row holding a king of the color. -/
def findKingInRow (board : Board) (color : Color) (r : Nat) : Option Position :=
  (List.range 8).findSome? (fun (c : Nat) =>
    match rawGet board (r : Int) (c : Int) with
    | some p =>
      if p.type = PieceType.k ∧ p.color = color then some ⟨(r : Int), (c : Int)⟩ else none
    | none => none)

/-- One row step of the king scan: a row that holds a king overwrites
the accumulator, any other row keeps it. -/
def kingScanStep (board : Board) (color : Color)
    (acc : Option Position) (r : Nat) : Option Position :=
  match findKingInRow board color r with
  | some kp => some kp
  | none => acc

def findKing (board : Board) (color : Color) : Option Position :=
  (List.range 8).foldl (kingScanStep board color) none

/-- `ChessGame.isCheck(color, board)`. -/
def isCheck (color : Color) (board : Board) : Bool :=
  match findKing board color with
  | none => true
  | some kp =>
    (List.range 8).any (fun r => (List.range 8).any (fun c =>
      match rawGet board (r : Int) (c : Int) with
      | some p =>
        if p.color = color then false
        else (getPseudoLegalMoves ⟨(r : Int), (c : Int)⟩ board).any
          (fun m => decide (m.row = kp.row ∧ m.col = kp.col))
      | none => false))

/-- The board tested for the castling through-square inside
`getLegalMoves`: a clone with the king shifted one step toward the
destination. -/
def castleMidBoard (b : Board) (pos : Position) (d : Int) : Board :=
  let mb := cloneBoard b
  setSq (setSq mb pos.row (pos.col + d) (rawGet mb pos.row pos.col)) pos.row pos.col none

/-- The simulated board inside `getLegalMoves`: a clone with the moving
piece relocated to the candidate square and its origin cleared (the
castling rook hop is not simulated here). -/
def simBoard (b : Board) (pos mv : Position) (piece : Piece) : Board :=
  let nb := cloneBoard b
  setSq (setSq nb mv.row mv.col (some piece)) pos.row pos.col none

/-- The filter predicate of `ChessGame.getLegalMoves`: `piece` is the
piece at `pos` on the live board (already fetched by the caller, and
re-fetched by the source from the clone as `movedPiece`). -/
def legalFilter (g : ChessGame) (pos : Position) (piece : Piece) (mv : Position) : Bool :=
  if piece.type = PieceType.k ∧ (mv.col - pos.col).natAbs > 1 then
    if isCheck piece.color g.board then false
    else
      let d : Int := if mv.col > pos.col then 1 else -1
      if isCheck piece.color (castleMidBoard g.board pos d) then false
      else !(isCheck piece.color (simBoard g.board pos mv piece))
  else !(isCheck piece.color (simBoard g.board pos mv piece))

/-- `ChessGame.getLegalMoves`. -/
def getLegalMoves (g : ChessGame) (pos : Position) : List Position :=
  match getPiece g pos with
  | none => []
  | some piece =>
    if piece.color ≠ g.turn then []
    else (getPseudoLegalMoves pos g.board).filter (legalFilter g pos piece)

/-- `ChessGame.hasNoMoves`. -/
def hasNoMoves (g : ChessGame) : Bool :=
  (List.range 8).all (fun r => (List.range 8).all (fun c =>
    match rawGet g.board (r : Int) (c : Int) with
    | some p =>
      if p.color = g.turn then (getLegalMoves g ⟨(r : Int), (c : Int)⟩).isEmpty
      else true
    | none => true))

/-- `ChessGame.isCheckMate`. -/
def isCheckMate (g : ChessGame) : Bool :=
  if isCheck g.turn g.board = false then false else hasNoMoves g

/-- `ChessGame.isStaleMate`. -/
def isStaleMate (g : ChessGame) : Bool :=
  if isCheck g.turn g.board = true then false else hasNoMoves g

/-- The mutation performed by an accepted `ChessGame.move` before the
terminal-state check: capture bookkeeping, piece relocation with
`hasMoved := true`, the castling rook hop, promotion to queen, and the
turn flip. -/
def applyMoveCore (g : ChessGame) (src dst : Position) (piece : Piece) : ChessGame :=
  let target := rawGet g.board dst.row dst.col
  let dead' := match target with
    | some t => g.deadPieces ++ [t]
    | none => g.deadPieces
  let b1 := setSq g.board dst.row dst.col (some { piece with hasMoved := true })
  let b2 := setSq b1 src.row src.col none
  let b3 :=
    if piece.type = PieceType.k ∧ (dst.col - src.col).natAbs > 1 then
      let rookCol : Int := if dst.col > src.col then 7 else 0
      let rookTargetCol : Int := if dst.col > src.col then 5 else 3
      match rawGet b2 dst.row rookCol with
      | some rook =>
        setSq (setSq b2 dst.row rookTargetCol (some { rook with hasMoved := true }))
          dst.row rookCol none
      | none => b2
    else b2
  let b4 :=
    if piece.type = PieceType.p ∧ (dst.row = 0 ∨ dst.row = 7) then
      match rawGet b3 dst.row dst.col with
      | some pc => setSq b3 dst.row dst.col (some { pc with type := PieceType.q })
      | none => b3
    else b3
  { board := b4,
    turn := if g.turn = Color.w then Color.b else Color.w,
    history := g.history,
    deadPieces := dead',
    winner := g.winner }

/-- The accepted branch of `ChessGame.move` including the terminal
check: on checkmate the winner is the side that just moved, on
stalemate it is a draw. -/
def applyMove (g : ChessGame) (src dst : Position) (piece : Piece) : ChessGame :=
  let g1 := applyMoveCore g src dst piece
  if isCheckMate g1 then
    { g1 with winner := some (WinnerV.side (if g1.turn = Color.w then Color.b else Color.w)) }
  else if isStaleMate g1 then
    { g1 with winner := some WinnerV.draw }
  else g1

/-- `ChessGame.move(from, to)`: the boolean result paired with the
state after the call.  The `none` branch of the inner match models the
non-null assertion `this.board[from.row][from.col]!`; it is unreachable
because a nonempty legal-move list implies a piece at `from`. -/
def move (g : ChessGame) (src dst : Position) : Bool × ChessGame :=
  if (getLegalMoves g src).any (fun m => decide (m.row = dst.row ∧ m.col = dst.col)) then
    match rawGet g.board src.row src.col with
    | some piece => (true, applyMove g src dst piece)
    | none => (false, g)
  else (false, g)

/-- Piece letter in `ChessGame.getFen`: lowercase letter of the kind,
uppercased for white. -/
def pieceLetter (pc : Piece) : String :=
  match pc.color, pc.type with
  | Color.w, PieceType.p => "P"
  | Color.w, PieceType.r => "R"
  | Color.w, PieceType.n => "N"
  | Color.w, PieceType.b => "B"
  | Color.w, PieceType.q => "Q"
  | Color.w, PieceType.k => "K"
  | Color.b, PieceType.p => "p"
  | Color.b, PieceType.r => "r"
  | Color.b, PieceType.n => "n"
  | Color.b, PieceType.b => "b"
  | Color.b, PieceType.q => "q"
  | Color.b, PieceType.k => "k"

/-- One column step of the run-length encoding in `ChessGame.getFen`:
the string built so far and the pending empty-square count. -/
def fenRowStep (board : Board) (r : Nat) (acc : String × Nat) (c : Nat) : String × Nat :=
  match rawGet board (r : Int) (c : Int) with
  | none => (acc.1, acc.2 + 1)
  | some p => (acc.1 ++ (if acc.2 > 0 then toString acc.2 else "") ++ pieceLetter p, 0)

/-- One rank of `ChessGame.getFen`. -/
def fenRow (board : Board) (r : Nat) : String :=
  let res := (List.range 8).foldl (fenRowStep board r) ("", 0)
  res.1 ++ (if res.2 > 0 then toString res.2 else "")

/-- `ChessGame.getFen`. -/
def getFen (g : ChessGame) : String :=
  String.intercalate "/" ((List.range 8).map (fenRow g.board)) ++
    " " ++ (if g.turn = Color.w then "w" else "b") ++ " - - 0 1"

/-- A board with the shape the engine always maintains: eight rows of
eight squares (the constructor builds it and `move` only uses in-place
element updates). -/
def WFBoard (b : Board) : Prop :=
  b.length = 8 ∧ ∀ row ∈ b, row.length = 8

/-- Game states the engine itself can produce: the freshly constructed
game, plus anything an accepted `move` call yields. -/
inductive Reachable : ChessGame → Prop where
  | init : Reachable newGame
  | step (g : ChessGame) (src dst : Position) (g' : ChessGame)
      (h : Reachable g) (hm : move g src dst = (true, g')) : Reachable g'

/-- Position after 1. f3 (f2-f3). -/
def fm1 : ChessGame := (move newGame ⟨6, 5⟩ ⟨5, 5⟩).2

/-- Position after 1. f3 e5 (e7-e5). -/
def fm2 : ChessGame := (move fm1 ⟨1, 4⟩ ⟨3, 4⟩).2

/-- Position after 1. f3 e5 2. g4 (g2-g4). -/
def fm3 : ChessGame := (move fm2 ⟨6, 6⟩ ⟨4, 6⟩).2

/-- Position after 1. f3 e5 2. g4 Qh4 (d8-h4), the Fool's Mate. -/
def fm4 : ChessGame := (move fm3 ⟨0, 3⟩ ⟨4, 7⟩).2

/-- Every on-board white piece has an empty legal-move list. -/
def whiteHasNoLegalMove (g : ChessGame) : Bool :=
  (List.range 8).all (fun r => (List.range 8).all (fun c =>
    match rawGet g.board (r : Int) (c : Int) with
    | some p =>
      if p.color = Color.w then (getLegalMoves g ⟨(r : Int), (c : Int)⟩).isEmpty
      else true
    | none => true))

/-- No king of the color anywhere on the eight-by-eight grid. -/
def noKingOnBoard (board : Board) (color : Color) : Prop :=
  ∀ r : Nat, r < 8 → ∀ c : Nat, c < 8 → ∀ p : Piece,
    rawGet board (r : Int) (c : Int) = some p →
    ¬(p.type = PieceType.k ∧ p.color = color)

/-- The grid holds a king of the color at `(kr, kc)` and nowhere else. -/
def onlyKingAt (board : Board) (color : Color) (kr kc : Nat) : Prop :=
  (∃ kp : Piece, rawGet board (kr : Int) (kc : Int) = some kp ∧
    kp.type = PieceType.k ∧ kp.color = color) ∧
  (∀ r : Nat, r < 8 → ∀ c : Nat, c < 8 → ∀ p : Piece,
    rawGet board (r : Int) (c : Int) = some p ∧ p.type = PieceType.k ∧
    p.color = color → r = kr ∧ c = kc)

/-- State-transformer form of `ChessGame.getLegalMoves`: the method
body assigns to no field of `this` (all simulation happens on
`cloneBoard` copies), so the threaded state is returned as received. -/
def getLegalMovesM (g : ChessGame) (pos : Position) : List Position × ChessGame :=
  (getLegalMoves g pos, g)

/-- State-transformer form of `ChessGame.isCheck` on the live board:
the method only reads the board, so the threaded state is returned as
received. -/
def isCheckM (g : ChessGame) (color : Color) : Bool × ChessGame :=
  (isCheck color g.board, g)

/-- State-transformer form of `ChessGame.getFen`: the method only
reads the board and the turn. -/
def getFenM (g : ChessGame) : String × ChessGame :=
  (getFen g, g)

/-- Test fixture: white king e1 and white rook h1 (both unmoved), black
king e8; white to move, kingside castling available. -/
def castleTestBoard : Board :=
  [[none, none, none, none, some ⟨PieceType.k, Color.b, false⟩, none, none, none],
   emptyRow, emptyRow, emptyRow, emptyRow, emptyRow, emptyRow,
   [none, none, none, none, some ⟨PieceType.k, Color.w, false⟩, none, none,
    some ⟨PieceType.r, Color.w, false⟩]]

def castleTestGame : ChessGame :=
  { board := castleTestBoard, turn := Color.w,
    history := [], deadPieces := [], winner := none }

/-- Test fixture: white pawn a7 about to promote, kings far apart. -/
def promoTestBoard : Board :=
  [[none, none, none, none, none, none, none, some ⟨PieceType.k, Color.b, false⟩],
   [some ⟨PieceType.p, Color.w, true⟩, none, none, none, none, none, none, none],
   emptyRow, emptyRow, emptyRow, emptyRow, emptyRow,
   [none, none, none, none, some ⟨PieceType.k, Color.w, false⟩, none, none, none]]

def promoTestGame : ChessGame :=
  { board := promoTestBoard, turn := Color.w,
    history := [], deadPieces := [], winner := none }

/-- Test fixture: lone black king e8 checked by a white rook on e1. -/
def checkTestBoard : Board :=
  [[none, none, none, none, some ⟨PieceType.k, Color.b, false⟩, none, none, none],
   emptyRow, emptyRow, emptyRow, emptyRow, emptyRow, emptyRow,
   [none, none, none, none, some ⟨PieceType.r, Color.w, false⟩, none, none, none]]

/-- The castling fixture after white castles kingside. -/
def castledTestGame : ChessGame := (move castleTestGame ⟨7, 4⟩ ⟨7, 6⟩).2

/-- The promotion fixture after the a7 pawn promotes on a8. -/
def promotedTestGame : ChessGame := (move promoTestGame ⟨1, 0⟩ ⟨0, 0⟩).2

/-
Helper lemmas about the board representation.
-/

theorem cloneBoard_eq (b : Board) : cloneBoard b = b := by
  have hfun : (fun p : Option Piece =>
      match p with
      | some pc => some { type := pc.type, color := pc.color, hasMoved := pc.hasMoved }
      | none => none) = id := by
    funext p
    cases p <;> rfl
  simp [cloneBoard, hfun]

theorem rawGet_setSq_ne (b : Board) (r c r' c' : Int) (v : Option Piece)
    (h : r.toNat ≠ r'.toNat ∨ c.toNat ≠ c'.toNat) :
    rawGet (setSq b r c v) r' c' = rawGet b r' c' := by
  simp only [rawGet, setSq, List.getD_eq_getElem?_getD]
  rcases h with h | h
  · rw [List.getElem?_set_ne h]
  · by_cases hr : r.toNat = r'.toNat
    · rw [← hr]
      by_cases hlen : r.toNat < b.length
      · rw [List.getElem?_set_self hlen]
        simp only [Option.getD_some]
        rw [List.getElem?_set_ne h]
      · rw [List.set_eq_of_length_le (by omega)]
    · rw [List.getElem?_set_ne hr]

theorem rawGet_setSq_self (b : Board) (r c : Int) (v : Option Piece)
    (hb : WFBoard b) (hr : 0 ≤ r ∧ r < 8) (hc : 0 ≤ c ∧ c < 8) :
    rawGet (setSq b r c v) r c = v := by
  obtain ⟨hlen, hrows⟩ := hb
  have hrn : r.toNat < b.length := by omega
  have hrow : (b[r.toNat]?.getD ([] : List (Option Piece))).length = 8 := by
    rw [List.getElem?_eq_getElem hrn]
    exact hrows _ (List.getElem_mem hrn)
  simp only [rawGet, setSq, List.getD_eq_getElem?_getD]
  rw [List.getElem?_set_self hrn]
  simp only [Option.getD_some]
  rw [List.getElem?_set_self (by omega)]
  rfl

theorem WFBoard_setSq (b : Board) (r c : Int) (v : Option Piece)
    (hb : WFBoard b) : WFBoard (setSq b r c v) := by
  obtain ⟨hlen, hrows⟩ := hb
  constructor
  · unfold setSq
    rw [List.length_set]
    exact hlen
  · intro row hrow
    by_cases hrn : r.toNat < b.length
    · unfold setSq at hrow
      rcases List.mem_or_eq_of_mem_set hrow with h | h
      · exact hrows _ h
      · subst h
        rw [List.length_set, List.getD_eq_getElem?_getD,
          List.getElem?_eq_getElem hrn]
        exact hrows _ (List.getElem_mem hrn)
    · unfold setSq at hrow
      rw [List.set_eq_of_length_le (by omega)] at hrow
      exact hrows _ hrow

theorem getPiece_eq_some_elim (g : ChessGame) (pos : Position) (piece : Piece)
    (hp : getPiece g pos = some piece) :
    (0 ≤ pos.row ∧ pos.row < 8 ∧ 0 ≤ pos.col ∧ pos.col < 8) ∧
    rawGet g.board pos.row pos.col = some piece := by
  unfold getPiece at hp
  by_cases hv : isValidPos pos = true
  · rw [if_pos hv] at hp
    refine ⟨?_, hp⟩
    unfold isValidPos at hv
    exact of_decide_eq_true hv
  · rw [if_neg hv] at hp
    cases hp

theorem addIfValid_eq_some (board : Board) (color : Color) (r c : Int)
    (co mo : Bool) (q : Position)
    (h : (addIfValid board color r c co mo).1 = some q) :
    q = ⟨r, c⟩ ∧ isValidPos ⟨r, c⟩ = true := by
  unfold addIfValid at h
  by_cases hv : isValidPos (⟨r, c⟩ : Position) = false
  · rw [if_pos hv] at h
    cases h
  · rw [if_neg hv] at h
    have hvt : isValidPos (⟨r, c⟩ : Position) = true := by
      cases hq : isValidPos (⟨r, c⟩ : Position)
      · exact absurd hq hv
      · rfl
    refine ⟨?_, hvt⟩
    cases hraw : rawGet board r c with
    | some t =>
      rw [hraw] at h
      have h' : (if t.color = color then ((none : Option Position), false)
          else if mo = true then ((none : Option Position), false)
          else (some (⟨r, c⟩ : Position), false)).1 = some q := h
      by_cases hcol : t.color = color
      · rw [if_pos hcol] at h'
        exact Option.noConfusion (h' : (none : Option Position) = some q)
      · rw [if_neg hcol] at h'
        by_cases hmo : mo = true
        · rw [if_pos hmo] at h'
          exact Option.noConfusion (h' : (none : Option Position) = some q)
        · rw [if_neg hmo] at h'
          have h2 : some (⟨r, c⟩ : Position) = some q := h'
          injection h2 with h3
          exact h3.symm
    | none =>
      rw [hraw] at h
      have h' : (if co = true then ((none : Option Position), false)
          else (some (⟨r, c⟩ : Position), true)).1 = some q := h
      by_cases hco : co = true
      · rw [if_pos hco] at h'
        exact Option.noConfusion (h' : (none : Option Position) = some q)
      · rw [if_neg hco] at h'
        have h2 : some (⟨r, c⟩ : Position) = some q := h'
        injection h2 with h3
        exact h3.symm

theorem any_coord_eq_true_iff (l : List Position) (dst : Position) :
    (l.any (fun m => decide (m.row = dst.row ∧ m.col = dst.col))) = true ↔ dst ∈ l := by
  rw [List.any_eq_true]
  constructor
  · rintro ⟨m, hm, hdec⟩
    rw [decide_eq_true_eq] at hdec
    obtain ⟨h1, h2⟩ := hdec
    have hmd : m = dst := by
      cases m
      cases dst
      simp_all
    rwa [hmd] at hm
  · intro hmem
    exact ⟨dst, hmem, by simp⟩

/-- Claim C1: a move request whose destination is not among the legal
moves of its origin square (including the cases of an empty origin or a
piece of the side not to move, whose legal-move list is empty) is
rejected: `move` returns `false` and every observable component of the
state - every square, the turn, the captured list, the winner - is
unchanged. -/
theorem move_illegal_rejected (g : ChessGame) (src dst : Position)
    (h : dst ∉ getLegalMoves g src) :
    (move g src dst).1 = false ∧
    (∀ r c : Int, rawGet (move g src dst).2.board r c = rawGet g.board r c) ∧
    (move g src dst).2.turn = g.turn ∧
    (move g src dst).2.deadPieces = g.deadPieces ∧
    (move g src dst).2.winner = g.winner := by
  have hcond : ¬ ((getLegalMoves g src).any
      (fun m => decide (m.row = dst.row ∧ m.col = dst.col)) = true) := by
    rw [any_coord_eq_true_iff]
    exact h
  have hmove : move g src dst = (false, g) := by
    unfold move
    rw [if_neg hcond]
  rw [hmove]
  exact ⟨rfl, fun r c => rfl, rfl, rfl, rfl⟩

/-- Witness for C1: requesting a3 for the black rook on a8 while white
is to move is rejected and mutates nothing. -/
theorem move_illegal_rejected_witness :
    (⟨3, 3⟩ : Position) ∉ getLegalMoves newGame ⟨0, 0⟩ ∧
    ((move newGame ⟨0, 0⟩ ⟨3, 3⟩).1 = false ∧
     (∀ r c : Int, rawGet (move newGame ⟨0, 0⟩ ⟨3, 3⟩).2.board r c =
        rawGet newGame.board r c) ∧
     (move newGame ⟨0, 0⟩ ⟨3, 3⟩).2.turn = newGame.turn ∧
     (move newGame ⟨0, 0⟩ ⟨3, 3⟩).2.deadPieces = newGame.deadPieces ∧
     (move newGame ⟨0, 0⟩ ⟨3, 3⟩).2.winner = newGame.winner) :=
  ⟨by decide, move_illegal_rejected newGame ⟨0, 0⟩ ⟨3, 3⟩ (by decide)⟩

/-- Claim C9: `getPiece` returns `none` on every off-board coordinate
pair, negative values and values of eight or more included; the range
check guards the array access, and the Lean embedding is total by
construction. -/
theorem getPiece_offboard_none (g : ChessGame) (pos : Position)
    (h : pos.row < 0 ∨ 8 ≤ pos.row ∨ pos.col < 0 ∨ 8 ≤ pos.col) :
    getPiece g pos = none := by
  have hcond : ¬ (isValidPos pos = true) := by
    unfold isValidPos
    simp only [decide_eq_true_eq]
    omega
  unfold getPiece
  rw [if_neg hcond]

/-- Witness for C9 at the off-board pair (-1, 9). -/
theorem getPiece_offboard_none_witness :
    (((⟨-1, 9⟩ : Position).row < 0 ∨ 8 ≤ (⟨-1, 9⟩ : Position).row ∨
      (⟨-1, 9⟩ : Position).col < 0 ∨ 8 ≤ (⟨-1, 9⟩ : Position).col) ∧
     getPiece newGame ⟨-1, 9⟩ = none) :=
  ⟨Or.inl (by decide), getPiece_offboard_none newGame ⟨-1, 9⟩ (Or.inl (by decide))⟩

/-- Claim C8: the serializer maps the freshly constructed game to
exactly the expected FEN-like string. -/
theorem getFen_initial :
    getFen newGame = "rnbqkbnr/pppppppp/8/8/8/8/PPPPPPPP/RNBQKBNR w - - 0 1" := by
  rfl

/-- Claim C10: the query operations `getLegalMoves`, `isCheck` and
`getFen` leave the live state unchanged.  The TypeScript methods assign
to no field of `this` - their move simulation happens on `cloneBoard`
copies - so their state-transformer embeddings return the threaded
state as received, and `cloneBoard` itself is value-identical to its
input (a deep, independent copy). -/
theorem queries_leave_state_unchanged (g : ChessGame) (pos : Position) (color : Color) :
    (getLegalMovesM g pos).2 = g ∧ (isCheckM g color).2 = g ∧ (getFenM g).2 = g ∧
    (∀ r c : Int, rawGet (getLegalMovesM g pos).2.board r c = rawGet g.board r c) ∧
    (getLegalMovesM g pos).2.turn = g.turn ∧
    (getLegalMovesM g pos).2.deadPieces = g.deadPieces ∧
    (getLegalMovesM g pos).2.winner = g.winner ∧
    (∀ b : Board, cloneBoard b = b) :=
  ⟨rfl, rfl, rfl, fun _ _ => rfl, rfl, rfl, rfl, cloneBoard_eq⟩

theorem legal_empty_of_hasNoMoves (g : ChessGame) (h : hasNoMoves g = true)
    (pos : Position) : getLegalMoves g pos = [] := by
  cases hp : getPiece g pos with
  | none =>
    unfold getLegalMoves
    rw [hp]
  | some piece =>
    by_cases hcol : piece.color = g.turn
    · obtain ⟨hbounds, hraw⟩ := getPiece_eq_some_elim g pos piece hp
      have hrn : pos.row.toNat < 8 := by omega
      have hcn : pos.col.toNat < 8 := by omega
      have hrr : ((pos.row.toNat : Nat) : Int) = pos.row := Int.toNat_of_nonneg hbounds.1
      have hcc : ((pos.col.toNat : Nat) : Int) = pos.col := Int.toNat_of_nonneg hbounds.2.2.1
      unfold hasNoMoves at h
      rw [List.all_eq_true] at h
      have h2 := h pos.row.toNat (List.mem_range.mpr hrn)
      rw [List.all_eq_true] at h2
      have h3 := h2 pos.col.toNat (List.mem_range.mpr hcn)
      rw [hrr, hcc] at h3
      rw [hraw] at h3
      have h4 : (if piece.color = g.turn
          then (getLegalMoves g ⟨pos.row, pos.col⟩).isEmpty else true) = true := h3
      rw [if_pos hcol] at h4
      exact List.isEmpty_iff.mp h4
    · unfold getLegalMoves
      rw [hp]
      show (if piece.color ≠ g.turn then []
        else (getPseudoLegalMoves pos g.board).filter (legalFilter g pos piece)) = []
      rw [if_pos hcol]

theorem move_rejected_of_hasNoMoves (g : ChessGame) (h : hasNoMoves g = true)
    (src dst : Position) : move g src dst = (false, g) := by
  have hl : getLegalMoves g src = [] := legal_empty_of_hasNoMoves g h src
  have hcond : ¬ ((getLegalMoves g src).any
      (fun m => decide (m.row = dst.row ∧ m.col = dst.col)) = true) := by
    rw [hl]
    simp
  unfold move
  rw [if_neg hcond]

theorem hasNoMoves_set_winner (g : ChessGame) (x : Option WinnerV) :
    hasNoMoves { g with winner := x } = hasNoMoves g := rfl

theorem isCheckMate_elim (g : ChessGame) (h : isCheckMate g = true) :
    isCheck g.turn g.board = true ∧ hasNoMoves g = true := by
  unfold isCheckMate at h
  by_cases hc : isCheck g.turn g.board = false
  · rw [if_pos hc] at h
    cases h
  · rw [if_neg hc] at h
    cases hb : isCheck g.turn g.board with
    | false => exact absurd hb hc
    | true => exact ⟨rfl, h⟩

theorem isStaleMate_elim (g : ChessGame) (h : isStaleMate g = true) :
    isCheck g.turn g.board = false ∧ hasNoMoves g = true := by
  unfold isStaleMate at h
  by_cases hc : isCheck g.turn g.board = true
  · rw [if_pos hc] at h
    cases h
  · rw [if_neg hc] at h
    cases hb : isCheck g.turn g.board with
    | false => exact ⟨rfl, h⟩
    | true => exact absurd hb hc

theorem hasNoMoves_false_of_not_terminal (g : ChessGame)
    (hcm : ¬ isCheckMate g = true) (hsm : ¬ isStaleMate g = true) :
    hasNoMoves g = false := by
  cases hn : hasNoMoves g with
  | false => rfl
  | true =>
    cases hc : isCheck g.turn g.board with
    | true => exact absurd (by simp [isCheckMate, hc, hn]) hcm
    | false => exact absurd (by simp [isStaleMate, hc, hn]) hsm

theorem hasNoMoves_of_winner_set (g : ChessGame) (hr : Reachable g) :
    g.winner ≠ none → hasNoMoves g = true := by
  induction hr with
  | init => intro hw; exact absurd rfl hw
  | step g src dst g' hre hm ih =>
    intro hw
    by_cases hany : (getLegalMoves g src).any
        (fun m => decide (m.row = dst.row ∧ m.col = dst.col)) = true
    · unfold move at hm
      rw [if_pos hany] at hm
      cases hraw : rawGet g.board src.row src.col with
      | none =>
        rw [hraw] at hm
        exact Bool.noConfusion (congrArg Prod.fst hm)
      | some piece =>
        rw [hraw] at hm
        have hg' : g' = applyMove g src dst piece := (congrArg Prod.snd hm).symm
        subst hg'
        by_cases hcm : isCheckMate (applyMoveCore g src dst piece) = true
        · have hnm := (isCheckMate_elim _ hcm).2
          have hap : applyMove g src dst piece =
              { applyMoveCore g src dst piece with
                winner := some (WinnerV.side
                  (if (applyMoveCore g src dst piece).turn = Color.w
                   then Color.b else Color.w)) } := by
            simp only [applyMove]
            rw [if_pos hcm]
          rw [hap, hasNoMoves_set_winner]
          exact hnm
        · by_cases hsm : isStaleMate (applyMoveCore g src dst piece) = true
          · have hnm := (isStaleMate_elim _ hsm).2
            have hap : applyMove g src dst piece =
                { applyMoveCore g src dst piece with winner := some WinnerV.draw } := by
              simp only [applyMove]
              rw [if_neg hcm, if_pos hsm]
            rw [hap, hasNoMoves_set_winner]
            exact hnm
          · have hap : applyMove g src dst piece = applyMoveCore g src dst piece := by
              simp only [applyMove]
              rw [if_neg hcm, if_neg hsm]
            rw [hap] at hw
            have hgw : g.winner ≠ none := by
              have hcw : (applyMoveCore g src dst piece).winner = g.winner := rfl
              rw [hcw] at hw
              exact hw
            have hnm := ih hgw
            rw [legal_empty_of_hasNoMoves g hnm src] at hany
            simp at hany
    · unfold move at hm
      rw [if_neg hany] at hm
      exact Bool.noConfusion (congrArg Prod.fst hm)

/-- Claim C2: on every engine-reachable state whose winner is set (a
win or a draw), every further `move` call returns `false` and leaves
the state - in particular the stored outcome - unchanged.  The engine
only sets the winner when the side to move has no legal move, so every
later request is rejected by the legality guard. -/
theorem winner_permanent (g : ChessGame) (hr : Reachable g) (hw : g.winner ≠ none)
    (src dst : Position) : move g src dst = (false, g) :=
  move_rejected_of_hasNoMoves g (hasNoMoves_of_winner_set g hr hw) src dst

/-- Witness for C2: the Fool's Mate final position is reachable, has
its winner set, and rejects a further move request. -/
theorem winner_permanent_witness :
    fm4.winner ≠ none ∧ move fm4 ⟨6, 0⟩ ⟨5, 0⟩ = (false, fm4) :=
  ⟨by decide,
   winner_permanent fm4
     (Reachable.step fm3 ⟨0, 3⟩ ⟨4, 7⟩ fm4
       (Reachable.step fm2 ⟨6, 6⟩ ⟨4, 6⟩ fm3
         (Reachable.step fm1 ⟨1, 4⟩ ⟨3, 4⟩ fm2
           (Reachable.step newGame ⟨6, 5⟩ ⟨5, 5⟩ fm1 Reachable.init (by decide))
           (by decide))
         (by decide))
       (by decide))
     (by decide) ⟨6, 0⟩ ⟨5, 0⟩⟩

theorem move_eq_true_elim (g : ChessGame) (src dst : Position) (g' : ChessGame)
    (hm : move g src dst = (true, g')) :
    dst ∈ getLegalMoves g src ∧
    ∃ piece, rawGet g.board src.row src.col = some piece ∧
      g' = applyMove g src dst piece := by
  by_cases hany : (getLegalMoves g src).any
      (fun m => decide (m.row = dst.row ∧ m.col = dst.col)) = true
  · unfold move at hm
    rw [if_pos hany] at hm
    refine ⟨(any_coord_eq_true_iff _ _).mp hany, ?_⟩
    cases hraw : rawGet g.board src.row src.col with
    | none =>
      rw [hraw] at hm
      exact Bool.noConfusion (congrArg Prod.fst hm)
    | some piece =>
      rw [hraw] at hm
      exact ⟨piece, rfl, (congrArg Prod.snd hm).symm⟩
  · unfold move at hm
    rw [if_neg hany] at hm
    exact Bool.noConfusion (congrArg Prod.fst hm)

theorem applyMoveCore_turn (g : ChessGame) (src dst : Position) (piece : Piece) :
    (applyMoveCore g src dst piece).turn =
      (if g.turn = Color.w then Color.b else Color.w) := rfl

theorem applyMoveCore_winner (g : ChessGame) (src dst : Position) (piece : Piece) :
    (applyMoveCore g src dst piece).winner = g.winner := rfl

/-- Claim C3: after every accepted move the outcome is classified for
the new side to move - a win for the side that just moved when the new
side is in check with no legal move anywhere, a draw when it is not in
check with no legal move, and otherwise the stored outcome is left as
it was; moreover the Fool's Mate sequence 1.f3 e5 2.g4 Qh4 played
through `move` from the initial position ends with winner black and an
empty legal-move list for every white piece. -/
theorem move_outcome_classification (g g' : ChessGame) (src dst : Position)
    (hm : move g src dst = (true, g')) :
    ((isCheck g'.turn g'.board = true ∧ hasNoMoves g' = true) →
        g'.winner = some (WinnerV.side g.turn)) ∧
    ((isCheck g'.turn g'.board = false ∧ hasNoMoves g' = true) →
        g'.winner = some WinnerV.draw) ∧
    (hasNoMoves g' = false → g'.winner = g.winner) ∧
    move newGame ⟨6, 5⟩ ⟨5, 5⟩ = (true, fm1) ∧
    move fm1 ⟨1, 4⟩ ⟨3, 4⟩ = (true, fm2) ∧
    move fm2 ⟨6, 6⟩ ⟨4, 6⟩ = (true, fm3) ∧
    move fm3 ⟨0, 3⟩ ⟨4, 7⟩ = (true, fm4) ∧
    fm4.winner = some (WinnerV.side Color.b) ∧
    whiteHasNoLegalMove fm4 = true := by
  obtain ⟨hdst, piece, hraw, hg'⟩ := move_eq_true_elim g src dst g' hm
  subst hg'
  refine ⟨?_, ?_, ?_, by decide, by decide, by decide, by decide, by decide, by decide⟩
  · rintro ⟨hchk, hnm⟩
    by_cases hcm : isCheckMate (applyMoveCore g src dst piece) = true
    · have hap : applyMove g src dst piece =
          { applyMoveCore g src dst piece with
            winner := some (WinnerV.side
              (if (applyMoveCore g src dst piece).turn = Color.w
               then Color.b else Color.w)) } := by
        simp only [applyMove]
        rw [if_pos hcm]
      rw [hap]
      show some (WinnerV.side
          (if (applyMoveCore g src dst piece).turn = Color.w
           then Color.b else Color.w)) = some (WinnerV.side g.turn)
      rw [applyMoveCore_turn]
      cases g.turn <;> rfl
    · exfalso
      by_cases hsm : isStaleMate (applyMoveCore g src dst piece) = true
      · have hap : applyMove g src dst piece =
            { applyMoveCore g src dst piece with winner := some WinnerV.draw } := by
          simp only [applyMove]
          rw [if_neg hcm, if_pos hsm]
        rw [hap] at hchk
        have hchk' : isCheck (applyMoveCore g src dst piece).turn
            (applyMoveCore g src dst piece).board = true := hchk
        exact Bool.noConfusion (((isStaleMate_elim _ hsm).1).symm.trans hchk')
      · have hap : applyMove g src dst piece = applyMoveCore g src dst piece := by
          simp only [applyMove]
          rw [if_neg hcm, if_neg hsm]
        rw [hap] at hnm
        exact Bool.noConfusion
          ((hasNoMoves_false_of_not_terminal _ hcm hsm).symm.trans hnm)
  · rintro ⟨hchk, hnm⟩
    by_cases hcm : isCheckMate (applyMoveCore g src dst piece) = true
    · exfalso
      have hap : applyMove g src dst piece =
          { applyMoveCore g src dst piece with
            winner := some (WinnerV.side
              (if (applyMoveCore g src dst piece).turn = Color.w
               then Color.b else Color.w)) } := by
        simp only [applyMove]
        rw [if_pos hcm]
      rw [hap] at hchk
      have hchk' : isCheck (applyMoveCore g src dst piece).turn
          (applyMoveCore g src dst piece).board = false := hchk
      exact Bool.noConfusion (((isCheckMate_elim _ hcm).1).symm.trans hchk' |>.symm)
    · by_cases hsm : isStaleMate (applyMoveCore g src dst piece) = true
      · have hap : applyMove g src dst piece =
            { applyMoveCore g src dst piece with winner := some WinnerV.draw } := by
          simp only [applyMove]
          rw [if_neg hcm, if_pos hsm]
        rw [hap]
      · exfalso
        have hap : applyMove g src dst piece = applyMoveCore g src dst piece := by
          simp only [applyMove]
          rw [if_neg hcm, if_neg hsm]
        rw [hap] at hnm
        exact Bool.noConfusion
          ((hasNoMoves_false_of_not_terminal _ hcm hsm).symm.trans hnm)
  · intro hnm
    by_cases hcm : isCheckMate (applyMoveCore g src dst piece) = true
    · exfalso
      have hap : applyMove g src dst piece =
          { applyMoveCore g src dst piece with
            winner := some (WinnerV.side
              (if (applyMoveCore g src dst piece).turn = Color.w
               then Color.b else Color.w)) } := by
        simp only [applyMove]
        rw [if_pos hcm]
      rw [hap, hasNoMoves_set_winner] at hnm
      exact Bool.noConfusion (((isCheckMate_elim _ hcm).2).symm.trans hnm |>.symm)
    · by_cases hsm : isStaleMate (applyMoveCore g src dst piece) = true
      · exfalso
        have hap : applyMove g src dst piece =
            { applyMoveCore g src dst piece with winner := some WinnerV.draw } := by
          simp only [applyMove]
          rw [if_neg hcm, if_pos hsm]
        rw [hap, hasNoMoves_set_winner] at hnm
        exact Bool.noConfusion (((isStaleMate_elim _ hsm).2).symm.trans hnm |>.symm)
      · have hap : applyMove g src dst piece = applyMoveCore g src dst piece := by
          simp only [applyMove]
          rw [if_neg hcm, if_neg hsm]
        rw [hap]
        exact applyMoveCore_winner g src dst piece

/-- Witness for C3 at the first Fool's Mate move: 1. f3 is accepted,
and the classification facts hold for the resulting position. -/
theorem move_outcome_classification_witness :
    move newGame ⟨6, 5⟩ ⟨5, 5⟩ = (true, fm1) ∧
    (((isCheck fm1.turn fm1.board = true ∧ hasNoMoves fm1 = true) →
        fm1.winner = some (WinnerV.side newGame.turn)) ∧
     ((isCheck fm1.turn fm1.board = false ∧ hasNoMoves fm1 = true) →
        fm1.winner = some WinnerV.draw) ∧
     (hasNoMoves fm1 = false → fm1.winner = newGame.winner) ∧
     move newGame ⟨6, 5⟩ ⟨5, 5⟩ = (true, fm1) ∧
     move fm1 ⟨1, 4⟩ ⟨3, 4⟩ = (true, fm2) ∧
     move fm2 ⟨6, 6⟩ ⟨4, 6⟩ = (true, fm3) ∧
     move fm3 ⟨0, 3⟩ ⟨4, 7⟩ = (true, fm4) ∧
     fm4.winner = some (WinnerV.side Color.b) ∧
     whiteHasNoLegalMove fm4 = true) :=
  ⟨by decide, move_outcome_classification newGame fm1 ⟨6, 5⟩ ⟨5, 5⟩ (by decide)⟩

theorem bool_eq_false_of_not_true {b : Bool} (h : ¬ b = true) : b = false := by
  cases b
  · rfl
  · exact absurd rfl h

theorem mem_legal_elim (g : ChessGame) (pos : Position) (piece : Piece) (mv : Position)
    (hp : getPiece g pos = some piece) (hmem : mv ∈ getLegalMoves g pos) :
    piece.color = g.turn ∧ mv ∈ getPseudoLegalMoves pos g.board ∧
    legalFilter g pos piece mv = true := by
  unfold getLegalMoves at hmem
  rw [hp] at hmem
  have hmem' : mv ∈ (if piece.color ≠ g.turn then []
      else (getPseudoLegalMoves pos g.board).filter (legalFilter g pos piece)) := hmem
  by_cases hcol : piece.color = g.turn
  · rw [if_neg (fun hne => hne hcol)] at hmem'
    have hsplit := List.mem_filter.mp hmem'
    exact ⟨hcol, hsplit.1, hsplit.2⟩
  · rw [if_pos hcol] at hmem'
    cases hmem'

/-- Claim C4: a castling candidate (a king move spanning more than one
column) survives the legal-move filter only if the king is not
currently in check, the pass-through square is not attacked on the
one-step clone, and the destination square is not attacked on the clone
with the king relocated; so an attack on any of the from, through, or
to squares excludes the move. -/
theorem castling_filter_check_free (g : ChessGame) (pos mv : Position) (piece : Piece)
    (hp : getPiece g pos = some piece) (hk : piece.type = PieceType.k)
    (hspan : 1 < (mv.col - pos.col).natAbs)
    (hmem : mv ∈ getLegalMoves g pos) :
    isCheck piece.color g.board = false ∧
    isCheck piece.color
      (castleMidBoard g.board pos (if mv.col > pos.col then 1 else -1)) = false ∧
    isCheck piece.color (simBoard g.board pos mv piece) = false := by
  obtain ⟨hcol, hpm, hf⟩ := mem_legal_elim g pos piece mv hp hmem
  unfold legalFilter at hf
  rw [if_pos ⟨hk, hspan⟩] at hf
  by_cases h1 : isCheck piece.color g.board = true
  · rw [if_pos h1] at hf
    cases hf
  · rw [if_neg h1] at hf
    have hf' : (if isCheck piece.color
          (castleMidBoard g.board pos (if mv.col > pos.col then 1 else -1)) = true
        then false
        else !(isCheck piece.color (simBoard g.board pos mv piece))) = true := hf
    by_cases h2 : isCheck piece.color
        (castleMidBoard g.board pos (if mv.col > pos.col then 1 else -1)) = true
    · rw [if_pos h2] at hf'
      cases hf'
    · rw [if_neg h2] at hf'
      refine ⟨bool_eq_false_of_not_true h1, bool_eq_false_of_not_true h2, ?_⟩
      cases hb : isCheck piece.color (simBoard g.board pos mv piece)
      · rfl
      · rw [hb] at hf'
        cases hf'

/-- Witness for C4: in the kingside castling fixture the move e1-g1 is
legal and all three tested boards are check-free. -/
theorem castling_filter_check_free_witness :
    getPiece castleTestGame ⟨7, 4⟩ = some ⟨PieceType.k, Color.w, false⟩ ∧
    (⟨PieceType.k, Color.w, false⟩ : Piece).type = PieceType.k ∧
    1 < ((⟨7, 6⟩ : Position).col - (⟨7, 4⟩ : Position).col).natAbs ∧
    (⟨7, 6⟩ : Position) ∈ getLegalMoves castleTestGame ⟨7, 4⟩ ∧
    (isCheck (⟨PieceType.k, Color.w, false⟩ : Piece).color castleTestGame.board = false ∧
     isCheck (⟨PieceType.k, Color.w, false⟩ : Piece).color
       (castleMidBoard castleTestGame.board ⟨7, 4⟩
         (if (⟨7, 6⟩ : Position).col > (⟨7, 4⟩ : Position).col then 1 else -1)) = false ∧
     isCheck (⟨PieceType.k, Color.w, false⟩ : Piece).color
       (simBoard castleTestGame.board ⟨7, 4⟩ ⟨7, 6⟩
         ⟨PieceType.k, Color.w, false⟩) = false) :=
  ⟨by decide, rfl, by decide, by decide,
   castling_filter_check_free castleTestGame ⟨7, 4⟩ ⟨7, 6⟩
     ⟨PieceType.k, Color.w, false⟩ (by decide) rfl (by decide) (by decide)⟩

theorem pseudo_dispatch (pos : Position) (board : Board) (piece : Piece)
    (hraw : rawGet board pos.row pos.col = some piece) :
    getPseudoLegalMoves pos board =
      (match piece.type with
       | PieceType.p => pawnMoves board pos piece
       | PieceType.n => knightMoves board pos piece
       | PieceType.k => kingMoves board pos piece
       | PieceType.r => slidingMoves board pos piece rookDirections
       | PieceType.b => slidingMoves board pos piece bishopDirections
       | PieceType.q => slidingMoves board pos piece (rookDirections ++ bishopDirections)) := by
  unfold getPseudoLegalMoves
  rw [hraw]

theorem pseudo_of_type_k (pos : Position) (board : Board) (piece : Piece)
    (hraw : rawGet board pos.row pos.col = some piece)
    (hk : piece.type = PieceType.k) :
    getPseudoLegalMoves pos board = kingMoves board pos piece := by
  rw [pseudo_dispatch pos board piece hraw, hk]

theorem pseudo_of_type_p (pos : Position) (board : Board) (piece : Piece)
    (hraw : rawGet board pos.row pos.col = some piece)
    (hp : piece.type = PieceType.p) :
    getPseudoLegalMoves pos board = pawnMoves board pos piece := by
  rw [pseudo_dispatch pos board piece hraw, hp]

theorem mem_toList_addIfValid (board : Board) (color : Color) (r c : Int)
    (co mo : Bool) (mv : Position)
    (h : mv ∈ (addIfValid board color r c co mo).1.toList) :
    mv = ⟨r, c⟩ ∧ isValidPos ⟨r, c⟩ = true := by
  rcases hopt : (addIfValid board color r c co mo).1 with _ | q
  · rw [hopt] at h
    cases h
  · rw [hopt] at h
    have hq := addIfValid_eq_some board color r c co mo q hopt
    have hmq : mv = q := List.mem_singleton.mp h
    rw [hmq]
    exact hq

theorem kingMoves_span_castle (board : Board) (pos : Position) (piece : Piece)
    (mv : Position) (hspan : 1 < (mv.col - pos.col).natAbs)
    (hmem : mv ∈ kingMoves board pos piece) :
    mv.row = pos.row ∧ piece.hasMoved = false ∧
    ((mv.col = 6 ∧ ∃ rk, rawGet board pos.row 7 = some rk ∧ rk.type = PieceType.r ∧
        rk.hasMoved = false ∧ rawGet board pos.row 5 = none ∧
        rawGet board pos.row 6 = none) ∨
     (mv.col = 2 ∧ ∃ rk, rawGet board pos.row 0 = some rk ∧ rk.type = PieceType.r ∧
        rk.hasMoved = false ∧ rawGet board pos.row 1 = none ∧
        rawGet board pos.row 2 = none ∧ rawGet board pos.row 3 = none)) := by
  unfold kingMoves at hmem
  rcases List.mem_append.mp hmem with hstep | hcast
  · exfalso
    obtain ⟨o, ho, hadd⟩ := List.mem_flatMap.mp hstep
    obtain ⟨o1, o2⟩ := o
    obtain ⟨hmv, hval⟩ := mem_toList_addIfValid board piece.color
      (pos.row + (o1, o2).1) (pos.col + (o1, o2).2) false false mv hadd
    have hcol : mv.col = pos.col + o2 := by rw [hmv]
    simp only [kingOffsets, List.mem_cons, List.mem_singleton, Prod.mk.injEq,
      List.not_mem_nil] at ho
    rcases ho with ⟨h1, h2⟩ | ⟨h1, h2⟩ | ⟨h1, h2⟩ | ⟨h1, h2⟩ |
        ⟨h1, h2⟩ | ⟨h1, h2⟩ | ⟨h1, h2⟩ | ⟨h1, h2⟩ | h9 <;>
      first
      | (rw [h2] at hcol; omega)
      | exact h9
  · unfold castleCandidates at hcast
    by_cases hmvd : piece.hasMoved = false
    · rw [if_pos hmvd] at hcast
      rcases List.mem_append.mp hcast with hks | hqs
      · cases h7 : rawGet board pos.row 7 with
        | none =>
          rw [h7] at hks
          exact absurd hks (by simp)
        | some rk =>
          rw [h7] at hks
          have hks' : mv ∈ (if rk.type = PieceType.r ∧ rk.hasMoved = false ∧
              rawGet board pos.row 5 = none ∧ rawGet board pos.row 6 = none
              then [(⟨pos.row, 6⟩ : Position)] else []) := hks
          by_cases hcond : rk.type = PieceType.r ∧ rk.hasMoved = false ∧
              rawGet board pos.row 5 = none ∧ rawGet board pos.row 6 = none
          · rw [if_pos hcond] at hks'
            have heq : mv = ⟨pos.row, 6⟩ := List.mem_singleton.mp hks'
            subst heq
            exact ⟨rfl, hmvd,
              Or.inl ⟨rfl, rk, rfl, hcond.1, hcond.2.1, hcond.2.2.1, hcond.2.2.2⟩⟩
          · rw [if_neg hcond] at hks'
            cases hks'
      · cases h0 : rawGet board pos.row 0 with
        | none =>
          rw [h0] at hqs
          exact absurd hqs (by simp)
        | some rk =>
          rw [h0] at hqs
          have hqs' : mv ∈ (if rk.type = PieceType.r ∧ rk.hasMoved = false ∧
              rawGet board pos.row 1 = none ∧ rawGet board pos.row 2 = none ∧
              rawGet board pos.row 3 = none
              then [(⟨pos.row, 2⟩ : Position)] else []) := hqs
          by_cases hcond : rk.type = PieceType.r ∧ rk.hasMoved = false ∧
              rawGet board pos.row 1 = none ∧ rawGet board pos.row 2 = none ∧
              rawGet board pos.row 3 = none
          · rw [if_pos hcond] at hqs'
            have heq : mv = ⟨pos.row, 2⟩ := List.mem_singleton.mp hqs'
            subst heq
            exact ⟨rfl, hmvd,
              Or.inr ⟨rfl, rk, rfl, hcond.1, hcond.2.1, hcond.2.2.1,
                hcond.2.2.2.1, hcond.2.2.2.2⟩⟩
          · rw [if_neg hcond] at hqs'
            cases hqs'
    · rw [if_neg hmvd] at hcast
      cases hcast

theorem pawnMoves_shape (board : Board) (pos : Position) (piece : Piece)
    (mv : Position) (hmem : mv ∈ pawnMoves board pos piece) :
    isValidPos mv = true ∧
    (mv.row = pos.row + (if piece.color = Color.w then -1 else 1) ∨
     mv.row = pos.row + (if piece.color = Color.w then -1 else 1) * 2) := by
  have hmem' : mv ∈
      (addIfValid board piece.color
        (pos.row + (if piece.color = Color.w then -1 else 1)) pos.col false true).1.toList ++
      (if (addIfValid board piece.color
            (pos.row + (if piece.color = Color.w then -1 else 1)) pos.col false true).2 = true ∧
          piece.hasMoved = false ∧
          ((piece.color = Color.w ∧ pos.row = 6) ∨ (piece.color = Color.b ∧ pos.row = 1))
       then (addIfValid board piece.color
          (pos.row + (if piece.color = Color.w then -1 else 1) * 2) pos.col false true).1.toList
       else []) ++
      (addIfValid board piece.color
        (pos.row + (if piece.color = Color.w then -1 else 1)) (pos.col - 1) true false).1.toList ++
      (addIfValid board piece.color
        (pos.row + (if piece.color = Color.w then -1 else 1)) (pos.col + 1) true false).1.toList := hmem
  rcases List.mem_append.mp hmem' with h123 | h4
  · rcases List.mem_append.mp h123 with h12 | h3
    · rcases List.mem_append.mp h12 with h1 | h2
      · obtain ⟨hmv, hval⟩ := mem_toList_addIfValid _ _ _ _ _ _ _ h1
        subst hmv
        exact ⟨hval, Or.inl rfl⟩
      · by_cases hcond : (addIfValid board piece.color
            (pos.row + (if piece.color = Color.w then -1 else 1)) pos.col false true).2 = true ∧
            piece.hasMoved = false ∧
            ((piece.color = Color.w ∧ pos.row = 6) ∨ (piece.color = Color.b ∧ pos.row = 1))
        · rw [if_pos hcond] at h2
          obtain ⟨hmv, hval⟩ := mem_toList_addIfValid _ _ _ _ _ _ _ h2
          subst hmv
          exact ⟨hval, Or.inr rfl⟩
        · rw [if_neg hcond] at h2
          cases h2
    · obtain ⟨hmv, hval⟩ := mem_toList_addIfValid _ _ _ _ _ _ _ h3
      subst hmv
      exact ⟨hval, Or.inl rfl⟩
  · obtain ⟨hmv, hval⟩ := mem_toList_addIfValid _ _ _ _ _ _ _ h4
    subst hmv
    exact ⟨hval, Or.inl rfl⟩

theorem applyMove_board (g : ChessGame) (src dst : Position) (piece : Piece) :
    (applyMove g src dst piece).board = (applyMoveCore g src dst piece).board := by
  simp only [applyMove]
  split_ifs <;> rfl

theorem applyMoveCore_board_castle (g : ChessGame) (src dst : Position) (piece : Piece)
    (hk : piece.type = PieceType.k) (hspan : 1 < (dst.col - src.col).natAbs) :
    (applyMoveCore g src dst piece).board =
      (match rawGet (setSq (setSq g.board dst.row dst.col
            (some { piece with hasMoved := true })) src.row src.col none)
          dst.row (if dst.col > src.col then 7 else 0) with
       | some rook =>
         setSq (setSq (setSq (setSq g.board dst.row dst.col
               (some { piece with hasMoved := true })) src.row src.col none)
             dst.row (if dst.col > src.col then 5 else 3)
             (some { rook with hasMoved := true }))
           dst.row (if dst.col > src.col then 7 else 0) none
       | none =>
         setSq (setSq g.board dst.row dst.col
           (some { piece with hasMoved := true })) src.row src.col none) := by
  have hnp : ¬(piece.type = PieceType.p ∧ (dst.row = 0 ∨ dst.row = 7)) := by
    rintro ⟨hp', _⟩
    rw [hk] at hp'
    cases hp'
  simp only [applyMoveCore]
  rw [if_neg hnp, if_pos ⟨hk, hspan⟩]

theorem applyMoveCore_board_pawn_promo (g : ChessGame) (src dst : Position) (piece : Piece)
    (hp : piece.type = PieceType.p) (hback : dst.row = 0 ∨ dst.row = 7) :
    (applyMoveCore g src dst piece).board =
      (match rawGet (setSq (setSq g.board dst.row dst.col
            (some { piece with hasMoved := true })) src.row src.col none)
          dst.row dst.col with
       | some pc =>
         setSq (setSq (setSq g.board dst.row dst.col
             (some { piece with hasMoved := true })) src.row src.col none)
           dst.row dst.col (some { pc with type := PieceType.q })
       | none =>
         setSq (setSq g.board dst.row dst.col
           (some { piece with hasMoved := true })) src.row src.col none) := by
  have hnk : ¬(piece.type = PieceType.k ∧ 1 < (dst.col - src.col).natAbs) := by
    rintro ⟨hk', _⟩
    rw [hp] at hk'
    cases hk'
  simp only [applyMoveCore]
  rw [if_pos ⟨hp, hback⟩, if_neg hnk]

/-- Claim C5: when `move` accepts a king move spanning more than one
column, the same call relocates the corresponding rook - kingside from
col 7 to col 5, queenside from col 0 to col 3, on the king's row - and
sets that rook's `hasMoved` flag.  The rook's presence is guaranteed by
the pseudo-legal castling candidate conditions. -/
theorem castling_relocates_rook (g : ChessGame) (src dst : Position) (piece : Piece)
    (g' : ChessGame) (hWF : WFBoard g.board)
    (hp : getPiece g src = some piece) (hk : piece.type = PieceType.k)
    (hspan : 1 < (dst.col - src.col).natAbs)
    (hm : move g src dst = (true, g')) :
    dst.row = src.row ∧
    ∃ rook : Piece,
      rawGet g.board src.row (if dst.col > src.col then 7 else 0) = some rook ∧
      rook.type = PieceType.r ∧
      rawGet g'.board src.row (if dst.col > src.col then 5 else 3) =
        some { rook with hasMoved := true } ∧
      rawGet g'.board src.row (if dst.col > src.col then 7 else 0) = none := by
  obtain ⟨hbounds, hraw⟩ := getPiece_eq_some_elim g src piece hp
  obtain ⟨hdst, piece0, hraw0, hg'⟩ := move_eq_true_elim g src dst g' hm
  rw [hraw] at hraw0
  injection hraw0 with hpp
  subst hpp
  obtain ⟨hcolor, hpm, hfil⟩ := mem_legal_elim g src piece dst hp hdst
  rw [pseudo_of_type_k src g.board piece hraw hk] at hpm
  obtain ⟨hrow, hunmoved, hcases⟩ := kingMoves_span_castle g.board src piece dst hspan hpm
  subst hg'
  refine ⟨hrow, ?_⟩
  have hb := applyMove_board g src dst piece
  rcases hcases with ⟨hc6, rk, hrk7, hrkr, hrkm, h5, h6⟩ |
    ⟨hc2, rk, hrk0, hrkr, hrkm, h1, h2, h3⟩
  · have hne5 : src.col ≠ 5 := by
      intro he
      rw [he] at hraw
      rw [hraw] at h5
      cases h5
    have hne6 : src.col ≠ 6 := by
      intro he
      rw [he] at hraw
      rw [hraw] at h6
      cases h6
    have hne7 : src.col ≠ 7 := by
      intro he
      rw [he] at hraw
      rw [hraw] at hrk7
      injection hrk7 with he2
      rw [← he2, hk] at hrkr
      cases hrkr
    have hsle : src.col ≤ 4 := by omega
    have hgt : dst.col > src.col := by omega
    have hscrut : rawGet (setSq (setSq g.board dst.row dst.col
        (some { piece with hasMoved := true })) src.row src.col none)
        dst.row 7 = some rk := by
      rw [hrow, hc6]
      rw [rawGet_setSq_ne _ _ _ _ _ _ (Or.inr (by omega))]
      rw [rawGet_setSq_ne _ _ _ _ _ _ (Or.inr (by omega))]
      exact hrk7
    rw [if_pos hgt, if_pos hgt]
    refine ⟨rk, hrk7, hrkr, ?_, ?_⟩
    · rw [hb, applyMoveCore_board_castle g src dst piece hk hspan,
        if_pos hgt, if_pos hgt, hscrut]
      show rawGet (setSq (setSq (setSq (setSq g.board dst.row dst.col
            (some { piece with hasMoved := true })) src.row src.col none)
          dst.row 5 (some { rk with hasMoved := true })) dst.row 7 none) src.row 5 =
        some { rk with hasMoved := true }
      rw [hrow]
      rw [rawGet_setSq_ne _ _ _ _ _ _ (Or.inr (by omega))]
      apply rawGet_setSq_self
      · exact WFBoard_setSq _ _ _ _ (WFBoard_setSq _ _ _ _ hWF)
      · exact ⟨hbounds.1, hbounds.2.1⟩
      · omega
    · rw [hb, applyMoveCore_board_castle g src dst piece hk hspan,
        if_pos hgt, if_pos hgt, hscrut]
      show rawGet (setSq (setSq (setSq (setSq g.board dst.row dst.col
            (some { piece with hasMoved := true })) src.row src.col none)
          dst.row 5 (some { rk with hasMoved := true })) dst.row 7 none) src.row 7 = none
      rw [hrow]
      apply rawGet_setSq_self
      · exact WFBoard_setSq _ _ _ _
          (WFBoard_setSq _ _ _ _ (WFBoard_setSq _ _ _ _ hWF))
      · exact ⟨hbounds.1, hbounds.2.1⟩
      · omega
  · have hne1 : src.col ≠ 1 := by
      intro he
      rw [he] at hraw
      rw [hraw] at h1
      cases h1
    have hne2 : src.col ≠ 2 := by
      intro he
      rw [he] at hraw
      rw [hraw] at h2
      cases h2
    have hne3 : src.col ≠ 3 := by
      intro he
      rw [he] at hraw
      rw [hraw] at h3
      cases h3
    have hne0 : src.col ≠ 0 := by
      intro he
      rw [he] at hraw
      rw [hraw] at hrk0
      injection hrk0 with he2
      rw [← he2, hk] at hrkr
      cases hrkr
    have hge4 : 4 ≤ src.col := by omega
    have hngt : ¬(dst.col > src.col) := by omega
    have hscrut : rawGet (setSq (setSq g.board dst.row dst.col
        (some { piece with hasMoved := true })) src.row src.col none)
        dst.row 0 = some rk := by
      rw [hrow, hc2]
      rw [rawGet_setSq_ne _ _ _ _ _ _ (Or.inr (by omega))]
      rw [rawGet_setSq_ne _ _ _ _ _ _ (Or.inr (by omega))]
      exact hrk0
    rw [if_neg hngt, if_neg hngt]
    refine ⟨rk, hrk0, hrkr, ?_, ?_⟩
    · rw [hb, applyMoveCore_board_castle g src dst piece hk hspan,
        if_neg hngt, if_neg hngt, hscrut]
      show rawGet (setSq (setSq (setSq (setSq g.board dst.row dst.col
            (some { piece with hasMoved := true })) src.row src.col none)
          dst.row 3 (some { rk with hasMoved := true })) dst.row 0 none) src.row 3 =
        some { rk with hasMoved := true }
      rw [hrow]
      rw [rawGet_setSq_ne _ _ _ _ _ _ (Or.inr (by omega))]
      apply rawGet_setSq_self
      · exact WFBoard_setSq _ _ _ _ (WFBoard_setSq _ _ _ _ hWF)
      · exact ⟨hbounds.1, hbounds.2.1⟩
      · omega
    · rw [hb, applyMoveCore_board_castle g src dst piece hk hspan,
        if_neg hngt, if_neg hngt, hscrut]
      show rawGet (setSq (setSq (setSq (setSq g.board dst.row dst.col
            (some { piece with hasMoved := true })) src.row src.col none)
          dst.row 3 (some { rk with hasMoved := true })) dst.row 0 none) src.row 0 = none
      rw [hrow]
      apply rawGet_setSq_self
      · exact WFBoard_setSq _ _ _ _
          (WFBoard_setSq _ _ _ _ (WFBoard_setSq _ _ _ _ hWF))
      · exact ⟨hbounds.1, hbounds.2.1⟩
      · omega

/-- Witness for C5: kingside castling in the fixture relocates the h1
rook to f1 with its `hasMoved` flag set. -/
theorem castling_relocates_rook_witness :
    WFBoard castleTestGame.board ∧
    getPiece castleTestGame ⟨7, 4⟩ = some ⟨PieceType.k, Color.w, false⟩ ∧
    1 < ((⟨7, 6⟩ : Position).col - (⟨7, 4⟩ : Position).col).natAbs ∧
    move castleTestGame ⟨7, 4⟩ ⟨7, 6⟩ = (true, castledTestGame) ∧
    ((⟨7, 6⟩ : Position).row = (⟨7, 4⟩ : Position).row ∧
     ∃ rook : Piece,
       rawGet castleTestGame.board (⟨7, 4⟩ : Position).row
         (if (⟨7, 6⟩ : Position).col > (⟨7, 4⟩ : Position).col then 7 else 0) = some rook ∧
       rook.type = PieceType.r ∧
       rawGet castledTestGame.board (⟨7, 4⟩ : Position).row
         (if (⟨7, 6⟩ : Position).col > (⟨7, 4⟩ : Position).col then 5 else 3) =
         some { rook with hasMoved := true } ∧
       rawGet castledTestGame.board (⟨7, 4⟩ : Position).row
         (if (⟨7, 6⟩ : Position).col > (⟨7, 4⟩ : Position).col then 7 else 0) = none) :=
  ⟨⟨by decide, by decide⟩, by decide, by decide, by decide,
   castling_relocates_rook castleTestGame ⟨7, 4⟩ ⟨7, 6⟩ ⟨PieceType.k, Color.w, false⟩
     castledTestGame ⟨by decide, by decide⟩ (by decide) rfl (by decide) (by decide)⟩

/-- Claim C7: every accepted pawn move to row 0 or row 7 leaves, at the
destination square, a queen of the moving pawn's color with its
`hasMoved` flag set; promotion is always to a queen. -/
theorem pawn_promotion_queen (g : ChessGame) (src dst : Position) (piece : Piece)
    (g' : ChessGame) (hWF : WFBoard g.board)
    (hp : getPiece g src = some piece) (hpawn : piece.type = PieceType.p)
    (hback : dst.row = 0 ∨ dst.row = 7)
    (hm : move g src dst = (true, g')) :
    getPiece g' dst =
      some { type := PieceType.q, color := piece.color, hasMoved := true } := by
  obtain ⟨hbounds, hraw⟩ := getPiece_eq_some_elim g src piece hp
  obtain ⟨hdst, piece0, hraw0, hg'⟩ := move_eq_true_elim g src dst g' hm
  rw [hraw] at hraw0
  injection hraw0 with hpp
  subst hpp
  obtain ⟨hcolor, hpm, hfil⟩ := mem_legal_elim g src piece dst hp hdst
  rw [pseudo_of_type_p src g.board piece hraw hpawn] at hpm
  obtain ⟨hvald, hrowd⟩ := pawnMoves_shape g.board src piece dst hpm
  have hdb : 0 ≤ dst.row ∧ dst.row < 8 ∧ 0 ≤ dst.col ∧ dst.col < 8 := by
    unfold isValidPos at hvald
    exact of_decide_eq_true hvald
  have hrne : dst.row ≠ src.row := by
    rcases hrowd with h | h
    · by_cases hcw : piece.color = Color.w
      · rw [if_pos hcw] at h
        omega
      · rw [if_neg hcw] at h
        omega
    · by_cases hcw : piece.color = Color.w
      · rw [if_pos hcw] at h
        omega
      · rw [if_neg hcw] at h
        omega
  subst hg'
  have hb := applyMove_board g src dst piece
  unfold getPiece
  rw [if_pos hvald, hb, applyMoveCore_board_pawn_promo g src dst piece hpawn hback]
  have hscrut : rawGet (setSq (setSq g.board dst.row dst.col
      (some { piece with hasMoved := true })) src.row src.col none)
      dst.row dst.col = some { piece with hasMoved := true } := by
    rw [rawGet_setSq_ne _ _ _ _ _ _ (Or.inl (by omega))]
    exact rawGet_setSq_self _ _ _ _ hWF ⟨hdb.1, hdb.2.1⟩ ⟨hdb.2.2.1, hdb.2.2.2⟩
  rw [hscrut]
  show rawGet (setSq (setSq (setSq g.board dst.row dst.col
        (some { piece with hasMoved := true })) src.row src.col none)
      dst.row dst.col
      (some { { piece with hasMoved := true } with type := PieceType.q }))
    dst.row dst.col =
    some { type := PieceType.q, color := piece.color, hasMoved := true }
  rw [rawGet_setSq_self _ _ _ _
    (WFBoard_setSq _ _ _ _ (WFBoard_setSq _ _ _ _ hWF))
    ⟨hdb.1, hdb.2.1⟩ ⟨hdb.2.2.1, hdb.2.2.2⟩]

/-- Witness for C7: the a7 pawn promotes on a8 to a white queen. -/
theorem pawn_promotion_queen_witness :
    WFBoard promoTestGame.board ∧
    getPiece promoTestGame ⟨1, 0⟩ = some ⟨PieceType.p, Color.w, true⟩ ∧
    ((⟨0, 0⟩ : Position).row = 0 ∨ (⟨0, 0⟩ : Position).row = 7) ∧
    move promoTestGame ⟨1, 0⟩ ⟨0, 0⟩ = (true, promotedTestGame) ∧
    getPiece promotedTestGame ⟨0, 0⟩ =
      some { type := PieceType.q,
             color := (⟨PieceType.p, Color.w, true⟩ : Piece).color,
             hasMoved := true } :=
  ⟨⟨by decide, by decide⟩, by decide, Or.inl rfl, by decide,
   pawn_promotion_queen promoTestGame ⟨1, 0⟩ ⟨0, 0⟩ ⟨PieceType.p, Color.w, true⟩
     promotedTestGame ⟨by decide, by decide⟩ (by decide) rfl (Or.inl rfl) (by decide)⟩

theorem findSome?_none_of_all {α β : Type} (f : α → Option β) (l : List α)
    (h : ∀ a ∈ l, f a = none) : l.findSome? f = none := by
  induction l with
  | nil => rfl
  | cons a l ih =>
    rw [List.findSome?_cons, h a (List.mem_cons_self a l)]
    exact ih (fun b hb => h b (List.mem_cons_of_mem a hb))

theorem range_findSome?_eq_some {β : Type} :
    ∀ (n : Nat) (f : Nat → Option β) (v : β) (k : Nat), k < n →
      (∀ j, j < k → f j = none) → f k = some v →
      (List.range n).findSome? f = some v := by
  intro n
  induction n with
  | zero =>
    intro f v k hk _ _
    exact absurd hk (Nat.not_lt_zero k)
  | succ n ih =>
    intro f v k hk hbefore hf
    rw [List.range_succ_eq_map, List.findSome?_cons]
    by_cases hk0 : k = 0
    · subst hk0
      rw [hf]
    · rw [hbefore 0 (by omega)]
      show (List.map Nat.succ (List.range n)).findSome? f = some v
      rw [List.findSome?_map]
      refine ih (f ∘ Nat.succ) v (k - 1) (by omega) (fun j hj => ?_) ?_
      · show f (j + 1) = none
        exact hbefore (j + 1) (by omega)
      · show f ((k - 1) + 1) = some v
        have hk1 : k - 1 + 1 = k := by omega
        rw [hk1]
        exact hf

theorem kingScanStep_id (board : Board) (color : Color) (r : Nat)
    (h : findKingInRow board color r = none) :
    ∀ x, kingScanStep board color x r = x := by
  intro x
  unfold kingScanStep
  rw [h]

theorem kingScanStep_found (board : Board) (color : Color) (r : Nat) (kp : Position)
    (h : findKingInRow board color r = some kp) :
    ∀ x, kingScanStep board color x r = some kp := by
  intro x
  unfold kingScanStep
  rw [h]

theorem foldl_keep_none (step : Option Position → Nat → Option Position) :
    ∀ (l : List Nat) (acc : Option Position), (∀ a ∈ l, ∀ x, step x a = x) →
      l.foldl step acc = acc := by
  intro l
  induction l with
  | nil =>
    intro acc _
    rfl
  | cons a l ih =>
    intro acc h
    rw [List.foldl_cons, h a (List.mem_cons_self a l) acc]
    exact ih acc (fun b hb x => h b (List.mem_cons_of_mem a hb) x)

theorem foldl_keep_some (step : Option Position → Nat → Option Position) (k : Nat)
    (v : Position) (hk : ∀ x, step x k = some v) :
    ∀ (l : List Nat) (acc : Option Position), k ∈ l →
      (∀ a ∈ l, (∀ x, step x a = x) ∨ a = k) →
      l.foldl step acc = some v := by
  intro l
  induction l with
  | nil =>
    intro acc hmem
    cases hmem
  | cons a l ih =>
    intro acc hmem hothers
    rw [List.foldl_cons]
    by_cases hal : k ∈ l
    · exact ih _ hal (fun b hb => hothers b (List.mem_cons_of_mem a hb))
    · have ha : a = k := by
        rcases List.mem_cons.mp hmem with h | h
        · exact h.symm
        · exact absurd h hal
      subst ha
      rw [hk acc]
      apply foldl_keep_none
      intro b hb x
      rcases hothers b (List.mem_cons_of_mem a hb) with h | h
      · exact h x
      · exact absurd (h ▸ hb) hal

theorem findKing_eq_none (board : Board) (color : Color)
    (h : noKingOnBoard board color) : findKing board color = none := by
  have hh : ∀ r ∈ List.range 8, findKingInRow board color r = none := by
    intro r hr
    unfold findKingInRow
    apply findSome?_none_of_all
    intro c hc
    cases hrg : rawGet board (r : Int) (c : Int) with
    | none => rfl
    | some p =>
      show (if p.type = PieceType.k ∧ p.color = color
        then some (⟨(r : Int), (c : Int)⟩ : Position) else none) = none
      by_cases hkc : p.type = PieceType.k ∧ p.color = color
      · exact absurd hkc (h r (List.mem_range.mp hr) c (List.mem_range.mp hc) p hrg)
      · rw [if_neg hkc]
  unfold findKing
  exact foldl_keep_none (kingScanStep board color) (List.range 8) none
    (fun r hr => kingScanStep_id board color r (hh r hr))

theorem findKing_unique (board : Board) (color : Color) (kr kc : Nat)
    (hkr : kr < 8) (hkc : kc < 8) (h : onlyKingAt board color kr kc) :
    findKing board color = some ⟨(kr : Int), (kc : Int)⟩ := by
  obtain ⟨⟨kp, hkp, hkpt, hkpc⟩, huniq⟩ := h
  have hrowk : findKingInRow board color kr = some ⟨(kr : Int), (kc : Int)⟩ := by
    unfold findKingInRow
    refine range_findSome?_eq_some 8 _ _ kc hkc (fun j hj => ?_) ?_
    · cases hrg : rawGet board (kr : Int) (j : Int) with
      | none => rfl
      | some p =>
        show (if p.type = PieceType.k ∧ p.color = color
          then some (⟨(kr : Int), (j : Int)⟩ : Position) else none) = none
        by_cases hkc2 : p.type = PieceType.k ∧ p.color = color
        · exfalso
          have hj2 := huniq kr hkr j (by omega) p ⟨hrg, hkc2.1, hkc2.2⟩
          omega
        · rw [if_neg hkc2]
    · show (match rawGet board (kr : Int) (kc : Int) with
        | some p =>
          if p.type = PieceType.k ∧ p.color = color
          then some (⟨(kr : Int), (kc : Int)⟩ : Position) else none
        | none => none) = some ⟨(kr : Int), (kc : Int)⟩
      rw [hkp]
      show (if kp.type = PieceType.k ∧ kp.color = color
        then some (⟨(kr : Int), (kc : Int)⟩ : Position) else none) =
        some ⟨(kr : Int), (kc : Int)⟩
      rw [if_pos ⟨hkpt, hkpc⟩]
  have hothers : ∀ r ∈ List.range 8, findKingInRow board color r = none ∨ r = kr := by
    intro r hr
    by_cases hrk : r = kr
    · exact Or.inr hrk
    · refine Or.inl ?_
      unfold findKingInRow
      apply findSome?_none_of_all
      intro c hc
      cases hrg : rawGet board (r : Int) (c : Int) with
      | none => rfl
      | some p =>
        show (if p.type = PieceType.k ∧ p.color = color
          then some (⟨(r : Int), (c : Int)⟩ : Position) else none) = none
        by_cases hkc2 : p.type = PieceType.k ∧ p.color = color
        · exact absurd
            (huniq r (List.mem_range.mp hr) c (List.mem_range.mp hc) p
              ⟨hrg, hkc2.1, hkc2.2⟩).1 hrk
        · rw [if_neg hkc2]
  unfold findKing
  exact foldl_keep_some (kingScanStep board color) kr ⟨(kr : Int), (kc : Int)⟩
    (kingScanStep_found board color kr _ hrowk) (List.range 8) none
    (List.mem_range.mpr hkr)
    (fun r hr => (hothers r hr).elim
      (fun hn => Or.inl (kingScanStep_id board color r hn)) Or.inr)

/-- Claim C6: `isCheck` returns true whenever no king of the color is
on the board; and when the board holds exactly one king of the color,
it returns true exactly when some opposite-colored piece has a
pseudo-legal move, computed on the same board, landing on that king's
square. -/
theorem isCheck_characterization (board : Board) (color : Color) :
    (noKingOnBoard board color → isCheck color board = true) ∧
    (∀ kr kc : Nat, kr < 8 → kc < 8 → onlyKingAt board color kr kc →
      (isCheck color board = true ↔
        ∃ r : Nat, r < 8 ∧ ∃ c : Nat, c < 8 ∧ ∃ p : Piece,
          rawGet board (r : Int) (c : Int) = some p ∧ p.color ≠ color ∧
          ∃ m ∈ getPseudoLegalMoves ⟨(r : Int), (c : Int)⟩ board,
            m.row = (kr : Int) ∧ m.col = (kc : Int))) := by
  constructor
  · intro habs
    unfold isCheck
    rw [findKing_eq_none board color habs]
  · intro kr kc hkr hkc huk
    unfold isCheck
    rw [findKing_unique board color kr kc hkr hkc huk]
    show ((List.range 8).any (fun r => (List.range 8).any (fun c =>
      match rawGet board (r : Int) (c : Int) with
      | some p =>
        if p.color = color then false
        else (getPseudoLegalMoves ⟨(r : Int), (c : Int)⟩ board).any
          (fun m => decide (m.row = (kr : Int) ∧ m.col = (kc : Int)))
      | none => false))) = true ↔ _
    constructor
    · intro hscan
      rw [List.any_eq_true] at hscan
      obtain ⟨r, hrmem, hrow⟩ := hscan
      rw [List.any_eq_true] at hrow
      obtain ⟨c, hcmem, hcell⟩ := hrow
      refine ⟨r, List.mem_range.mp hrmem, c, List.mem_range.mp hcmem, ?_⟩
      cases hrg : rawGet board (r : Int) (c : Int) with
      | none =>
        rw [hrg] at hcell
        cases hcell
      | some p =>
        rw [hrg] at hcell
        have hcell' : (if p.color = color then false
            else (getPseudoLegalMoves ⟨(r : Int), (c : Int)⟩ board).any
              (fun m => decide (m.row = (kr : Int) ∧ m.col = (kc : Int)))) = true := hcell
        by_cases hpc : p.color = color
        · rw [if_pos hpc] at hcell'
          cases hcell'
        · rw [if_neg hpc] at hcell'
          rw [List.any_eq_true] at hcell'
          obtain ⟨m, hmmem, hmdec⟩ := hcell'
          rw [decide_eq_true_eq] at hmdec
          exact ⟨p, rfl, hpc, m, hmmem, hmdec⟩
    · rintro ⟨r, hr, c, hc, p, hrg, hpc, m, hmmem, hm1, hm2⟩
      rw [List.any_eq_true]
      refine ⟨r, List.mem_range.mpr hr, ?_⟩
      rw [List.any_eq_true]
      refine ⟨c, List.mem_range.mpr hc, ?_⟩
      rw [hrg]
      show (if p.color = color then false
        else (getPseudoLegalMoves ⟨(r : Int), (c : Int)⟩ board).any
          (fun m => decide (m.row = (kr : Int) ∧ m.col = (kc : Int)))) = true
      rw [if_neg hpc, List.any_eq_true]
      refine ⟨m, hmmem, ?_⟩
      rw [decide_eq_true_eq]
      exact ⟨hm1, hm2⟩

/-- Witness for C6: on the rook-checks-king fixture, the unique black
king sits on e8 and the characterization instantiates there. -/
theorem isCheck_characterization_witness :
    (0 : Nat) < 8 ∧ (4 : Nat) < 8 ∧ onlyKingAt checkTestBoard Color.b 0 4 ∧
    (isCheck Color.b checkTestBoard = true ↔
      ∃ r : Nat, r < 8 ∧ ∃ c : Nat, c < 8 ∧ ∃ p : Piece,
        rawGet checkTestBoard (r : Int) (c : Int) = some p ∧ p.color ≠ Color.b ∧
        ∃ m ∈ getPseudoLegalMoves ⟨(r : Int), (c : Int)⟩ checkTestBoard,
          m.row = ((0 : Nat) : Int) ∧ m.col = ((4 : Nat) : Int)) :=
  ⟨by decide, by decide,
   ⟨⟨⟨PieceType.k, Color.b, false⟩, by decide, rfl, rfl⟩, by decide⟩,
   (isCheck_characterization checkTestBoard Color.b).2 0 4 (by decide) (by decide)
     ⟨⟨⟨PieceType.k, Color.b, false⟩, by decide, rfl, rfl⟩, by decide⟩⟩
